import Mathlib

/-!
Verification development for the flowmap OD-visualization pipeline.

The data-preparation script (`scripts/prepare-data.mjs`) and the playback
components (`src/App.tsx`, `src/scene/NetRetentionPeaks.tsx`,
`src/scene/FlowParticles.tsx`) are shallowly embedded here.  JavaScript
numbers are modelled as exact rationals (`ℚ`); non-finite parse results
(`NaN`, `±Infinity` from `Number(...)`) are modelled as `none : Option ℚ`.
Quantities that genuinely require a real square root (`Math.sqrt`,
`Math.hypot`) are modelled over `ℝ`.
-/

namespace Flowmap

/-! ## Numeric primitives shared by the pipeline -/

/-- JavaScript `Math.round`: rounds half toward positive infinity. -/
def jsRound (x : ℚ) : ℤ := ⌊x + 1/2⌋

/-- `round(value, digits)` from `prepare-data.mjs`:
`Math.round(value * 10**digits) / 10**digits`. -/
def roundTo (digits : ℕ) (x : ℚ) : ℚ := (jsRound (x * 10 ^ digits) : ℚ) / 10 ^ digits

/-- `clamp01` from `prepare-data.mjs` / `App.tsx`: `Math.min(1, Math.max(0, v))`. -/
def clamp01 (x : ℚ) : ℚ := min 1 (max 0 x)

/-- The four quadrant bins of a flow (hours [0,6), [6,12), [12,18), [18,24)). -/
structure Bins where
  b0 : ℚ
  b1 : ℚ
  b2 : ℚ
  b3 : ℚ
deriving DecidableEq, Repr

/-- `bins.reduce((acc, v) => acc + v, 0)`. -/
def Bins.sum (b : Bins) : ℚ := b.b0 + b.b1 + b.b2 + b.b3

/-- The three cumulative band-cut fractions of a flow. -/
structure Cuts where
  c0 : ℚ
  c1 : ℚ
  c2 : ℚ
deriving DecidableEq, Repr

/-- `buildCutsFromBins` from `prepare-data.mjs` (the variant that rounds each
cut to 6 digits). -/
def buildCutsFromBins (b : Bins) : Cuts :=
  let total := b.sum
  if total ≤ 0 then ⟨1/4, 1/2, 3/4⟩
  else
    ⟨roundTo 6 (clamp01 (b.b0 / total)),
     roundTo 6 (clamp01 ((b.b0 + b.b1) / total)),
     roundTo 6 (clamp01 (min ((b.b0 + b.b1 + b.b2) / total) (99/100)))⟩

/-- `cutsFromBins` from `App.tsx` (no rounding step). -/
def cutsFromBins (b : Bins) : Cuts :=
  let total := b.sum
  if total ≤ 0 then ⟨1/4, 1/2, 3/4⟩
  else
    ⟨clamp01 (b.b0 / total),
     clamp01 ((b.b0 + b.b1) / total),
     clamp01 (min ((b.b0 + b.b1 + b.b2) / total) (99/100))⟩

/-! ## CSV ingestion (`main` in `prepare-data.mjs`, lines 113–173)

A parsed data row.  Each numeric cell is the result of `Number(cells[i])`;
`none` stands for a non-finite result (`NaN` / `±Infinity`), `some q` for a
finite value. -/
structure Row where
  oLon : Option ℚ
  oLat : Option ℚ
  dLon : Option ℚ
  dLat : Option ℚ
  qty  : Option ℚ
  hour : Option ℚ
deriving DecidableEq, Repr

/-- The skip condition of lines 122–131: the row is dropped iff a coordinate
or the quantity is non-finite, or the quantity is `≤ 0`.  The hour is *not*
part of this condition. -/
def rowSkipped (r : Row) : Bool :=
  r.oLon.isNone || r.oLat.isNone || r.dLon.isNone || r.dLat.isNone ||
    (match r.qty with
     | none => true
     | some q => decide (q ≤ 0))

/-- Coordinate identity key: `` `${lon.toFixed(6)},${lat.toFixed(6)}` ``.
`toFixed(6)` picks the multiple of `10⁻⁶` nearest to the value, ties toward
the larger numerator, i.e. `⌊x·10⁶ + 1/2⌋`. -/
def coordKey (lon lat : ℚ) : ℤ × ℤ := (jsRound (lon * 10 ^ 6), jsRound (lat * 10 ^ 6))

/-- The hourly bucket selected by lines 170–172:
`Number.isFinite(hour) && hour >= 0 && hour < 24` guards
`flow.hourly[Math.floor(hour)] += qty`. -/
def hourSlot : Option ℚ → Option (Fin 24)
  | none => none
  | some q =>
    if hq : 0 ≤ q ∧ q < 24 then
      some ⟨(⌊q⌋).toNat, by
        have h0 : (0 : ℤ) ≤ ⌊q⌋ := by
          exact_mod_cast Int.le_floor.mpr (by exact_mod_cast hq.1)
        have h24 : ⌊q⌋ < 24 := by
          have := Int.floor_le q
          exact_mod_cast Int.floor_lt.mpr (by exact_mod_cast hq.2)
        omega⟩
    else none

/-- Accumulator for one flow: `{ total, hourly: new Array(24).fill(0) }`. -/
structure FlowAcc where
  total : ℚ
  hourly : Fin 24 → ℚ

def FlowAcc.init : FlowAcc := ⟨0, fun _ => 0⟩

/-- The mutable maps of the ingestion pass, modelled extensionally: a key that
was never inserted maps to `false` / `0` / `FlowAcc.init`.  (Sequential ids
`n0, n1, …` / `d0, d1, …` are in bijection with the coordinate keys that
create them, so flows are keyed directly by the coordinate-key pair.) -/
structure IngestState where
  nodes : ℤ × ℤ → Bool
  destInbound : ℤ × ℤ → ℚ
  flows : (ℤ × ℤ) × (ℤ × ℤ) → FlowAcc

def IngestState.init : IngestState :=
  ⟨fun _ => false, fun _ => 0, fun _ => FlowAcc.init⟩

/-- The state update applied to an accepted row (lines 133–172): ensure the
origin node exists, add the quantity to the destination's inbound and to the
flow's total, and add it to the hourly bucket when the hour is valid. -/
def acceptRow (s : IngestState) (oLon oLat dLon dLat qty : ℚ) (hour : Option ℚ) :
    IngestState :=
  { nodes := fun k => k = coordKey oLon oLat || s.nodes k
    destInbound := fun k =>
      if k = coordKey dLon dLat then s.destInbound k + qty else s.destInbound k
    flows := fun k =>
      if k = (coordKey oLon oLat, coordKey dLon dLat) then
        { total := (s.flows k).total + qty
          hourly := fun h =>
            if hourSlot hour = some h then (s.flows k).hourly h + qty
            else (s.flows k).hourly h }
      else s.flows k }

/-- One iteration of the row loop (lines 113–173). -/
def processRow (s : IngestState) (r : Row) : IngestState :=
  match r.oLon, r.oLat, r.dLon, r.dLat, r.qty with
  | some oLon, some oLat, some dLon, some dLat, some qty =>
    if qty ≤ 0 then s
    else acceptRow s oLon oLat dLon dLat qty r.hour
  | _, _, _, _, _ => s

/-- The whole accumulation loop. -/
def ingest (rows : List Row) : IngestState := rows.foldl processRow IngestState.init

/-! ## Derived per-flow data (`flowBase`, lines 198–210) -/

/-- `sumRange(values, start, end)`: sums `values[i] ?? 0` for `start ≤ i < end`. -/
def sumRange (v : Fin 24 → ℚ) (s e : ℕ) : ℚ :=
  (List.range' s (e - s)).foldl
    (fun acc i => acc + (if h : i < 24 then v ⟨i, h⟩ else 0)) 0

/-- The four quadrant bins derived from a 24-hour histogram (lines 199–204). -/
def binsOfHourly (v : Fin 24 → ℚ) : Bins :=
  ⟨sumRange v 0 6, sumRange v 6 12, sumRange v 12 18, sumRange v 18 24⟩

/-- `bins.map(v => round(v, 4))` (line 221/250). -/
def round4Bins (b : Bins) : Bins :=
  ⟨roundTo 4 b.b0, roundTo 4 b.b1, roundTo 4 b.b2, roundTo 4 b.b3⟩

/-- One record of `flowBase` (lines 198–210): the accumulated totals together
with the derived global `bins`/`cuts` (accessed through `FlowBase.bins` and
`FlowBase.cuts`). -/
structure FlowBase where
  o : String
  d : String
  total : ℚ
  hourly : Fin 24 → ℚ

def FlowBase.bins (f : FlowBase) : Bins := binsOfHourly f.hourly

def FlowBase.cuts (f : FlowBase) : Cuts := buildCutsFromBins f.bins

/-- An emitted flow entry (`flows.json`, a frame of `flows-hourly.json`, or an
interpolated flow).  The real-valued visual weight `w` is carried by a
separate assignment function (`frameW`, `interpolateW`) because it involves
`Math.sqrt`. -/
structure FlowDatum where
  o : String
  d : String
  total : ℚ
  bins : Bins
  cuts : Cuts
deriving DecidableEq, Repr

/-- `Math.min(...values)` of a nonempty spread (the code guards emptiness
before every use; the `[]` case is an arbitrary default). -/
def listMin : List ℚ → ℚ
  | [] => 0
  | x :: xs => xs.foldl min x

/-- `Math.max(...values)` of a nonempty spread. -/
def listMax : List ℚ → ℚ
  | [] => 0
  | x :: xs => xs.foldl max x

/-- `Array.prototype.sort` with comparator `(a, b) => b.total - a.total` is a
stable descending sort, and the stable descending reordering of a list is
unique, so it is modelled by a stable insertion sort. -/
def insertByTotalDesc {α : Type} (total : α → ℚ) (x : α) : List α → List α
  | [] => [x]
  | y :: ys =>
    if total y < total x then x :: y :: ys else y :: insertByTotalDesc total x ys

def sortByTotalDesc {α : Type} (total : α → ℚ) : List α → List α
  | [] => []
  | x :: xs => insertByTotalDesc total x (sortByTotalDesc total xs)

/-! ## Hourly frames (lines 227–256) -/

/-- The flows active in hour `h`: `hourValues` after its `> 0` filter. -/
def hourActive (flows : List FlowBase) (h : Fin 24) : List FlowBase :=
  flows.filter fun f => decide (0 < f.hourly h)

/-- `frameMin`: minimum per-hour total of the active set. -/
def frameMin (flows : List FlowBase) (h : Fin 24) : ℚ :=
  listMin ((hourActive flows h).map fun f => f.hourly h)

/-- `frameMax`: maximum per-hour total of the active set. -/
def frameMax (flows : List FlowBase) (h : Fin 24) : ℚ :=
  listMax ((hourActive flows h).map fun f => f.hourly h)

/-- The entry emitted into hour `h`'s frame for an active flow
(lines 246–253): per-hour `total`, but the *global* `bins` and `cuts`. -/
def frameEntry (f : FlowBase) (h : Fin 24) : FlowDatum :=
  ⟨f.o, f.d, roundTo 4 (f.hourly h), round4Bins f.bins, f.cuts⟩

/-- Hour `h`'s frame: entries for the active flows, sorted descending by
total. -/
def mkFrame (flows : List FlowBase) (h : Fin 24) : List FlowDatum :=
  sortByTotalDesc FlowDatum.total ((hourActive flows h).map (frameEntry · h))

end Flowmap

namespace Flowmap

/-! ## Square-root normalization (needs `ℝ`) -/

noncomputable def clamp01R (x : ℝ) : ℝ := min 1 (max 0 x)

noncomputable def jsRoundR (x : ℝ) : ℤ := ⌊x + 1/2⌋

noncomputable def roundToR (digits : ℕ) (x : ℝ) : ℝ :=
  (jsRoundR (x * 10 ^ digits) : ℝ) / 10 ^ digits

/-- `normalizeSqrt` from `prepare-data.mjs` (lines 40–47, no internal clamp). -/
noncomputable def normalizeSqrt (value minValue maxValue : ℝ) : ℝ :=
  if maxValue ≤ minValue then 1
  else (Real.sqrt value - Real.sqrt minValue) / (Real.sqrt maxValue - Real.sqrt minValue)

/-- `normalizeSqrt` from `App.tsx` (lines 17–24, clamps the ratio). -/
noncomputable def normalizeSqrtApp (value minValue maxValue : ℝ) : ℝ :=
  if maxValue ≤ minValue then 1
  else clamp01R ((Real.sqrt value - Real.sqrt minValue) /
    (Real.sqrt maxValue - Real.sqrt minValue))

/-- A `w` value written by `prepare-data.mjs` (lines 223 and 252):
`round(clamp01(normalizeSqrt(value, min, max)))`, rounded to 6 digits. -/
noncomputable def wPrepared (value minValue maxValue : ℚ) : ℝ :=
  roundToR 6 (clamp01R (normalizeSqrt value minValue maxValue))

/-- The `w` of active flow `f` in hour `h`'s frame: normalized against that
hour's own min/max per-hour totals (line 252). -/
noncomputable def frameW (flows : List FlowBase) (h : Fin 24) (f : FlowBase) : ℝ :=
  wPrepared (f.hourly h) (frameMin flows h) (frameMax flows h)

/-! ## Hourly interpolation (`App.tsx`, lines 45–95) -/

/-- JS `%` on finite numbers: remainder with truncation toward zero. -/
def jsTrunc (x : ℚ) : ℤ := if 0 ≤ x then ⌊x⌋ else -⌊-x⌋

def jsMod (x y : ℚ) : ℚ := x - y * jsTrunc (x / y)

/-- `((hourPosition % 24) + 24) % 24`. -/
def wrapHour (x : ℚ) : ℚ := jsMod (jsMod x 24 + 24) 24

/-- A flow key `` `${o}|${d}` `` (ids contain no `|`, so the key is modelled
as the pair it encodes). -/
structure FlowKey where
  o : String
  d : String
deriving DecidableEq, Repr

/-- `frameMap.get(key)` on an insertion-ordered association list. -/
def alookup (k : FlowKey) : List (FlowKey × FlowDatum) → Option FlowDatum
  | [] => none
  | (k', e) :: rest => if k' = k then some e else alookup k rest

/-- The frame map built by `App.tsx` (lines 156–169) from a frame's entries. -/
def frameMapOf (frame : List FlowDatum) : List (FlowKey × FlowDatum) :=
  frame.map fun fl => (⟨fl.o, fl.d⟩, fl)

/-- `new Set([...lower.keys(), ...upper.keys()])` in insertion order, for maps
(whose own key lists are duplicate-free). -/
def interpKeys (lower upper : List (FlowKey × FlowDatum)) : List FlowKey :=
  lower.map Prod.fst ++
    ((upper.map Prod.fst).filter fun k => decide (k ∉ lower.map Prod.fst))

/-- `a * (1 - blend) + b * blend`. -/
def lerp (blend a b : ℚ) : ℚ := a * (1 - blend) + b * blend

/-- The merged flow for one key (lines 59–83): interpolated `bins` and
`total`, `cuts` recomputed from the interpolated bins, dropped when the
interpolated total is `≤ 1e-4`. -/
def mergeEntry (blend : ℚ) (lower upper : List (FlowKey × FlowDatum)) (k : FlowKey) :
    Option FlowDatum :=
  let fromE := alookup k lower
  let toE := alookup k upper
  let fb := (fromE.map FlowDatum.bins).getD ⟨0, 0, 0, 0⟩
  let tb := (toE.map FlowDatum.bins).getD ⟨0, 0, 0, 0⟩
  let bins : Bins :=
    ⟨lerp blend fb.b0 tb.b0, lerp blend fb.b1 tb.b1,
     lerp blend fb.b2 tb.b2, lerp blend fb.b3 tb.b3⟩
  let total := lerp blend ((fromE.map FlowDatum.total).getD 0)
    ((toE.map FlowDatum.total).getD 0)
  if total ≤ 1/10000 then none
  else some ⟨k.o, k.d, total, bins, cutsFromBins bins⟩

def finOfNat (n : ℕ) : Fin 24 := ⟨n % 24, Nat.mod_lt n (by norm_num)⟩

/-- `interpolateHourlyFlows` (its rational part: the merged flow list, sorted
descending by total; the `w` pass is `interpolateW`). -/
def interpolateQ (frames : Fin 24 → List (FlowKey × FlowDatum)) (hourPosition : ℚ) :
    List FlowDatum :=
  let wrapped := wrapHour hourPosition
  let lowerHour : ℕ := (⌊wrapped⌋).toNat
  let blend := wrapped - (⌊wrapped⌋ : ℚ)
  let lower := frames (finOfNat lowerHour)
  let upper := frames (finOfNat (lowerHour + 1))
  sortByTotalDesc FlowDatum.total
    ((interpKeys lower upper).filterMap (mergeEntry blend lower upper))

/-- The `w` assigned to a merged flow (lines 88–93): `normalizeSqrt` against
the merged set's own min/max totals. -/
noncomputable def interpolateW (frames : Fin 24 → List (FlowKey × FlowDatum))
    (hourPosition : ℚ) (f : FlowDatum) : ℝ :=
  let totals := (interpolateQ frames hourPosition).map FlowDatum.total
  normalizeSqrtApp f.total (listMin totals) (listMax totals)

/-! ## Playback components (`NetRetentionPeaks.tsx`, `FlowParticles.tsx`) -/

structure NodeDatum where
  x : ℚ
  y : ℚ
deriving DecidableEq, Repr

structure DestDatum where
  x : ℚ
  y : ℚ
  height : ℚ
deriving DecidableEq, Repr

/-- A flow as consumed at playback time (`o`, `d`, `total`, `w`). -/
structure FlowLite where
  o : String
  d : String
  total : ℚ
  w : ℝ

/-- The two id-resolution maps passed into the scene components. -/
structure PlaybackMaps where
  nodesById : String → Option NodeDatum
  destsById : String → Option DestDatum

/-- `nodesById.get(flow.o)` / `destinationsById.get(flow.d)`; both components
skip the flow unless both resolve. -/
def resolveFlow (m : PlaybackMaps) (f : FlowLite) : Option (NodeDatum × DestDatum) :=
  match m.nodesById f.o, m.destsById f.d with
  | some o, some dst => some (o, dst)
  | _, _ => none

/-- `snap`: `Math.round(value / spacing) * spacing`. -/
def snap (value spacing : ℚ) : ℚ := (jsRound (value / spacing) : ℚ) * spacing

/-- `keyForCell`: `` `${x.toFixed(4)},${y.toFixed(4)}` ``. -/
def cellKey (x y : ℚ) : ℤ × ℤ := (jsRound (x * 10 ^ 4), jsRound (y * 10 ^ 4))

/-- One iteration of the raw accumulation loop of `NetRetentionPeaks`
(lines 58–78): `net -= total` at the snapped origin cell, `net += total` at
the snapped destination cell; unresolvable flows are skipped. -/
def accumFlow (m : PlaybackMaps) (gridSize : ℚ) (cells : ℤ × ℤ → ℚ) (f : FlowLite) :
    ℤ × ℤ → ℚ :=
  match resolveFlow m f with
  | none => cells
  | some (o, dst) =>
    let oK := cellKey (snap o.x gridSize) (snap o.y gridSize)
    let dK := cellKey (snap dst.x gridSize) (snap dst.y gridSize)
    fun k => cells k - (if k = oK then f.total else 0) + (if k = dK then f.total else 0)

/-- The raw (unsmoothed) per-cell net of one aggregation pass; a cell that is
never touched holds `0`. -/
def rawCells (m : PlaybackMaps) (gridSize : ℚ) (flows : List FlowLite) : ℤ × ℤ → ℚ :=
  flows.foldl (accumFlow m gridSize) fun _ => 0

/-- The grid cells a single flow touches (empty if it does not resolve). -/
def flowCellKeys (m : PlaybackMaps) (gridSize : ℚ) (f : FlowLite) : List (ℤ × ℤ) :=
  match resolveFlow m f with
  | none => []
  | some (o, dst) =>
    [cellKey (snap o.x gridSize) (snap o.y gridSize),
     cellKey (snap dst.x gridSize) (snap dst.y gridSize)]

/-- `smoothFactor` of the per-cell merge (line 82). -/
def smoothFactor : ℚ := 17/100

/-- The smoothing merge for one cell (lines 84–94), including the eviction of
cells with zero target and `|next| < 0.06` (an evicted cell reads back as
`0`). -/
def smoothCell (target previous : ℚ) : ℚ :=
  if |previous + (target - previous) * smoothFactor| < 6/100 ∧ target = 0 then 0
  else previous + (target - previous) * smoothFactor

/-- One whole smoothing merge against a fixed raw target map. -/
def smoothMerge (targets state : ℤ × ℤ → ℚ) : ℤ × ℤ → ℚ :=
  fun k => smoothCell (targets k) (state k)

/-- `n` aggregation calls with a constant input flow set. -/
def iterSmooth (targets : ℤ × ℤ → ℚ) : ℕ → (ℤ × ℤ → ℚ) → ℤ × ℤ → ℚ
  | 0, s => s
  | n + 1, s => iterSmooth targets n (smoothMerge targets s)

/-- Line 108: `smoothMaxRef.current += (maxTarget - smoothMaxRef.current) * 0.12`. -/
def smoothMaxStep (previous maxTarget : ℚ) : ℚ :=
  previous + (maxTarget - previous) * (12/100)

/-- `particleCount` of one flow in `FlowParticles` (lines 64–77): `0` for a
skipped (unresolvable) flow, otherwise
`Math.max(1, Math.min(boost ? 9 : 12, baseCount))`. -/
noncomputable def particleCount (m : PlaybackMaps) (distanceBoost : Bool) (f : FlowLite) : ℕ :=
  match resolveFlow m f with
  | none => 0
  | some (o, dst) =>
    let distance2D : ℝ := Real.sqrt (((dst.x - o.x : ℚ) : ℝ) ^ 2 + ((dst.y - o.y : ℚ) : ℝ) ^ 2)
    let normalizedDistance : ℝ := min 1 (distance2D / 160)
    let baseCount : ℤ :=
      if distanceBoost then ⌊1 + normalizedDistance * 6⌋ else ⌊1 + f.w * 9⌋
    (max 1 (min (if distanceBoost then 9 else 12) baseCount)).toNat

end Flowmap

namespace Flowmap

/-! ## Basic lemmas about the numeric primitives -/

lemma jsRound_le_jsRound {x y : ℚ} (h : x ≤ y) : jsRound x ≤ jsRound y :=
  Int.floor_le_floor (by linarith)

lemma roundTo_le_roundTo (d : ℕ) {x y : ℚ} (h : x ≤ y) : roundTo d x ≤ roundTo d y := by
  unfold roundTo
  have hp : (0 : ℚ) < 10 ^ d := by positivity
  have hm : jsRound (x * 10 ^ d) ≤ jsRound (y * 10 ^ d) :=
    jsRound_le_jsRound (mul_le_mul_of_nonneg_right h hp.le)
  exact (div_le_div_iff_of_pos_right hp).mpr (by exact_mod_cast hm)

lemma roundTo_zero (d : ℕ) : roundTo d 0 = 0 := by
  simp [roundTo, jsRound]
  norm_num

lemma roundTo_one (d : ℕ) : roundTo d 1 = 1 := by
  have h1 : (1 : ℚ) * 10 ^ d = ((10 ^ d : ℤ) : ℚ) := by push_cast; ring
  have h2 : jsRound ((1 : ℚ) * 10 ^ d) = 10 ^ d := by
    rw [jsRound, h1, Int.floor_int_add]
    norm_num
  have hp : (10 : ℚ) ^ d ≠ 0 := by positivity
  rw [roundTo, h2]
  push_cast
  exact div_self hp

lemma clamp01_nonneg (x : ℚ) : 0 ≤ clamp01 x :=
  le_min (by norm_num) (le_max_left 0 x)

lemma clamp01_le_one (x : ℚ) : clamp01 x ≤ 1 := min_le_left 1 _

lemma clamp01_of_mem {x : ℚ} (h0 : 0 ≤ x) (h1 : x ≤ 1) : clamp01 x = x := by
  rw [clamp01, max_eq_right h0, min_eq_right h1]

/-! ## The smoothing filter (claims C8 and C9) -/

/-- One smoothing merge moves a cell toward its target by the factor
`1 - smoothFactor`; the eviction branch lands exactly on a zero target. -/
lemma smoothCell_dist (t p : ℚ) :
    |smoothCell t p - t| ≤ (1 - smoothFactor) * |p - t| := by
  have hs : (0 : ℚ) ≤ 1 - smoothFactor := by rw [smoothFactor]; norm_num
  rw [smoothCell]
  by_cases hc : |p + (t - p) * smoothFactor| < 6/100 ∧ t = 0
  · rw [if_pos hc, hc.2, sub_zero, abs_zero]
    exact mul_nonneg hs (abs_nonneg _)
  · rw [if_neg hc]
    have he : p + (t - p) * smoothFactor - t = (1 - smoothFactor) * (p - t) := by ring
    rw [he, abs_mul, abs_of_nonneg hs]

lemma iterSmooth_dist (targets : ℤ × ℤ → ℚ) (k : ℤ × ℤ) :
    ∀ (n : ℕ) (state : ℤ × ℤ → ℚ),
      |iterSmooth targets n state k - targets k| ≤
        (1 - smoothFactor) ^ n * |state k - targets k|
  | 0, state => by simp [iterSmooth]
  | n + 1, state => by
    have h1 := iterSmooth_dist targets k n (smoothMerge targets state)
    have h2 : |smoothMerge targets state k - targets k| ≤
        (1 - smoothFactor) * |state k - targets k| := smoothCell_dist _ _
    have hpow : (0 : ℚ) ≤ (1 - smoothFactor) ^ n := by
      unfold smoothFactor; positivity
    calc |iterSmooth targets (n + 1) state k - targets k|
        = |iterSmooth targets n (smoothMerge targets state) k - targets k| := by
          simp [iterSmooth]
      _ ≤ (1 - smoothFactor) ^ n * |smoothMerge targets state k - targets k| := h1
      _ ≤ (1 - smoothFactor) ^ n * ((1 - smoothFactor) * |state k - targets k|) :=
          mul_le_mul_of_nonneg_left h2 hpow
      _ = (1 - smoothFactor) ^ (n + 1) * |state k - targets k| := by ring

/-- **C8** (confirmed).  Applying the grid aggregation repeatedly with a
constant input flow set drives every cell's smoothed value to its raw target
geometrically at rate `1 - α` (`α = smoothFactor = 0.17`): after `n` calls the
distance is at most `(1-α)^n` times the initial distance, hence falls below
any `ε > 0` after a bounded number of calls. -/
theorem c8_smoothing_converges (m : PlaybackMaps) (gridSize : ℚ) (flows : List FlowLite)
    (state : ℤ × ℤ → ℚ) (k : ℤ × ℤ) :
    (∀ n : ℕ,
      |iterSmooth (rawCells m gridSize flows) n state k - rawCells m gridSize flows k| ≤
        (1 - smoothFactor) ^ n * |state k - rawCells m gridSize flows k|) ∧
    (∀ ε : ℚ, 0 < ε → ∃ N : ℕ, ∀ n : ℕ, N ≤ n →
      |iterSmooth (rawCells m gridSize flows) n state k - rawCells m gridSize flows k| < ε) := by
  set targets := rawCells m gridSize flows with htargets
  refine ⟨fun n => iterSmooth_dist targets k n state, fun ε hε => ?_⟩
  set d := |state k - targets k| with hd
  have hd0 : 0 ≤ d := abs_nonneg _
  have hd1 : (0 : ℚ) < d + 1 := by linarith
  obtain ⟨N, hN⟩ := exists_pow_lt_of_lt_one (x := ε / (d + 1)) (y := 1 - smoothFactor)
    (by positivity) (by unfold smoothFactor; norm_num)
  refine ⟨N, fun n hn => ?_⟩
  have hs0 : (0 : ℚ) ≤ 1 - smoothFactor := by unfold smoothFactor; norm_num
  have hs1 : (1 : ℚ) - smoothFactor ≤ 1 := by unfold smoothFactor; norm_num
  have hmono : (1 - smoothFactor) ^ n ≤ (1 - smoothFactor) ^ N :=
    pow_le_pow_of_le_one hs0 hs1 hn
  have h1 : |iterSmooth targets n state k - targets k| ≤ (1 - smoothFactor) ^ n * d :=
    iterSmooth_dist targets k n state
  have h2 : (1 - smoothFactor) ^ n * d ≤ (ε / (d + 1)) * d := by
    have := mul_le_mul_of_nonneg_right (hmono.trans hN.le) hd0
    linarith
  have h3 : (ε / (d + 1)) * d < ε := by
    rw [div_mul_eq_mul_div, div_lt_iff₀ hd1]
    nlinarith
  linarith

/-- **C8 witness**: the bound at a concrete instantiation (empty flow set,
initial state `1` at the origin cell, `ε = 1`). -/
theorem c8_smoothing_converges_witness :
    ∃ N : ℕ, ∀ n : ℕ, N ≤ n →
      |iterSmooth (rawCells ⟨fun _ => none, fun _ => none⟩ 3 []) n
          (fun _ => 1) (0, 0) -
        rawCells ⟨fun _ => none, fun _ => none⟩ 3 [] (0, 0)| < 1 :=
  (c8_smoothing_converges ⟨fun _ => none, fun _ => none⟩ 3 [] (fun _ => 1) (0, 0)).2
    1 (by norm_num)

/-- **C9 counterexample**.  The running maximum is *not* α-filtered with the
per-cell `smoothFactor = 0.17`: at `previous = 1`, `maxTarget = 2` the code's
update gives `1.12`, while the claimed identical-α update gives `1.17`. -/
theorem c9_counterexample :
    smoothFactor = 17/100 ∧
    smoothMaxStep 1 2 ≠ 1 + (2 - 1) * smoothFactor := by
  constructor
  · rfl
  · norm_num [smoothMaxStep, smoothFactor]

/-- **C9 amended**.  `smoothedMax` is updated by the same *shape* of α-filter
but with its own coefficient `0.12`, while cells use `smoothFactor = 0.17`;
the two coefficients differ. -/
theorem c9_amended (p t : ℚ) :
    smoothMaxStep p t - t = (1 - 12/100) * (p - t) ∧
    (¬ (|p + (t - p) * smoothFactor| < 6/100 ∧ t = 0) →
      smoothCell t p = p + (t - p) * smoothFactor) ∧
    smoothFactor = 17/100 ∧ (12/100 : ℚ) ≠ smoothFactor := by
  refine ⟨by unfold smoothMaxStep; ring, fun hne => ?_, rfl, by norm_num [smoothFactor]⟩
  simp only [smoothCell, if_neg hne]

/-- **C9 amended witness**: the non-evicting branch at `previous = 0`,
`target = 1`. -/
theorem c9_amended_witness :
    smoothMaxStep 0 1 - 1 = (1 - 12/100) * (0 - 1) ∧
    smoothCell 1 0 = 0 + (1 - 0) * smoothFactor :=
  ⟨(c9_amended 0 1).1,
   (c9_amended 0 1).2.1 (by norm_num [smoothFactor])⟩

/-! ## Real-valued rounding/clamping lemmas (for the `w` claims) -/

lemma clamp01R_nonneg (x : ℝ) : 0 ≤ clamp01R x :=
  le_min (by norm_num) (le_max_left 0 x)

lemma clamp01R_le_one (x : ℝ) : clamp01R x ≤ 1 := min_le_left 1 _

lemma clamp01R_of_mem {x : ℝ} (h0 : 0 ≤ x) (h1 : x ≤ 1) : clamp01R x = x := by
  rw [clamp01R, max_eq_right h0, min_eq_right h1]

lemma roundToR_le_roundToR (d : ℕ) {x y : ℝ} (h : x ≤ y) :
    roundToR d x ≤ roundToR d y := by
  unfold roundToR jsRoundR
  have hp : (0 : ℝ) < 10 ^ d := by positivity
  have hm : ⌊x * 10 ^ d + 1/2⌋ ≤ ⌊y * 10 ^ d + 1/2⌋ :=
    Int.floor_le_floor (by nlinarith)
  exact (div_le_div_iff_of_pos_right hp).mpr (by exact_mod_cast hm)

lemma roundToR_zero (d : ℕ) : roundToR d 0 = 0 := by
  simp [roundToR, jsRoundR]
  norm_num

lemma roundToR_one (d : ℕ) : roundToR d 1 = 1 := by
  have h1 : (1 : ℝ) * 10 ^ d = ((10 ^ d : ℤ) : ℝ) := by push_cast; ring
  have h2 : jsRoundR ((1 : ℝ) * 10 ^ d) = 10 ^ d := by
    rw [jsRoundR, h1, Int.floor_int_add]
    norm_num
  have hp : (10 : ℝ) ^ d ≠ 0 := by positivity
  rw [roundToR, h2]
  push_cast
  exact div_self hp

/-- **C6** (confirmed).  Every `w` produced by a normalization step — the
`prepare-data.mjs` pipeline `round(clamp01(normalizeSqrt(v, min, max)))`
(aggregate flows and hourly frames) and the `App.tsx` interpolation
`normalizeSqrt` (which clamps internally) — lies in `[0,1]`; it equals `1`
when the value equals the comparison set's maximum; and it equals `1` (not
`0`) in the degenerate case `max ≤ min`. -/
theorem c6_w_normalization (value minValue maxValue : ℚ)
    (h0 : 0 ≤ minValue) (h1 : minValue ≤ value) (h2 : value ≤ maxValue) :
    (0 ≤ wPrepared value minValue maxValue ∧ wPrepared value minValue maxValue ≤ 1) ∧
    (0 ≤ normalizeSqrtApp value minValue maxValue ∧
      normalizeSqrtApp value minValue maxValue ≤ 1) ∧
    (value = maxValue →
      wPrepared value minValue maxValue = 1 ∧
      normalizeSqrtApp value minValue maxValue = 1) ∧
    (maxValue ≤ minValue →
      wPrepared value minValue maxValue = 1 ∧
      normalizeSqrtApp value minValue maxValue = 1) := by
  have hb : ∀ x : ℝ, 0 ≤ roundToR 6 (clamp01R x) ∧ roundToR 6 (clamp01R x) ≤ 1 := by
    intro x
    constructor
    · have := roundToR_le_roundToR 6 (clamp01R_nonneg x)
      rwa [roundToR_zero] at this
    · have := roundToR_le_roundToR 6 (clamp01R_le_one x)
      rwa [roundToR_one] at this
  have hone : ∀ x : ℝ, x = 1 → roundToR 6 (clamp01R x) = 1 := by
    intro x hx
    rw [hx, clamp01R_of_mem (by norm_num) (by norm_num), roundToR_one]
  refine ⟨⟨(hb _).1, (hb _).2⟩,
    ⟨?_, ?_⟩, fun hvm => ?_, fun hmm => ?_⟩
  · unfold normalizeSqrtApp
    split
    · norm_num
    · exact clamp01R_nonneg _
  · unfold normalizeSqrtApp
    split
    · norm_num
    · exact clamp01R_le_one _
  · rw [hvm]
    by_cases hm : (maxValue : ℝ) ≤ (minValue : ℝ)
    · constructor
      · unfold wPrepared normalizeSqrt
        rw [if_pos hm]
        exact hone 1 rfl
      · unfold normalizeSqrtApp
        rw [if_pos hm]
    · have hne : Real.sqrt maxValue - Real.sqrt minValue ≠ 0 := by
        have hlt : (minValue : ℝ) < (maxValue : ℝ) := lt_of_not_le hm
        have : Real.sqrt minValue < Real.sqrt maxValue :=
          Real.sqrt_lt_sqrt (by exact_mod_cast h0) hlt
        linarith
      constructor
      · unfold wPrepared normalizeSqrt
        rw [if_neg hm, div_self hne]
        exact hone 1 rfl
      · unfold normalizeSqrtApp
        rw [if_neg hm, div_self hne, clamp01R_of_mem (by norm_num) (by norm_num)]
  · have hm : (maxValue : ℝ) ≤ (minValue : ℝ) := by exact_mod_cast hmm
    constructor
    · unfold wPrepared normalizeSqrt
      rw [if_pos hm]
      exact hone 1 rfl
    · unfold normalizeSqrtApp
      rw [if_pos hm]

/-- **C6 witness**: the normalization at `value = 4`, `min = 1`, `max = 4`. -/
theorem c6_w_normalization_witness :
    (0 ≤ wPrepared 4 1 4 ∧ wPrepared 4 1 4 ≤ 1) ∧
    (0 ≤ normalizeSqrtApp ((4 : ℚ) : ℝ) ((1 : ℚ) : ℝ) ((4 : ℚ) : ℝ) ∧
      normalizeSqrtApp ((4 : ℚ) : ℝ) ((1 : ℚ) : ℝ) ((4 : ℚ) : ℝ) ≤ 1) ∧
    (wPrepared 4 1 4 = 1 ∧ normalizeSqrtApp ((4 : ℚ) : ℝ) ((1 : ℚ) : ℝ) ((4 : ℚ) : ℝ) = 1) := by
  have h := c6_w_normalization 4 1 4 (by norm_num) (by norm_num) (by norm_num)
  exact ⟨h.1, h.2.1, h.2.2.1 rfl⟩

/-! ## Grid conservation (claim C7) -/

lemma accumFlow_none {m : PlaybackMaps} {f : FlowLite} (gridSize : ℚ)
    (c : ℤ × ℤ → ℚ) (h : resolveFlow m f = none) :
    accumFlow m gridSize c f = c := by
  unfold accumFlow
  rw [h]

lemma accumFlow_some {m : PlaybackMaps} {f : FlowLite} {o : NodeDatum} {dst : DestDatum}
    (gridSize : ℚ) (c : ℤ × ℤ → ℚ) (h : resolveFlow m f = some (o, dst)) :
    accumFlow m gridSize c f = fun k =>
      c k - (if k = cellKey (snap o.x gridSize) (snap o.y gridSize) then f.total else 0)
          + (if k = cellKey (snap dst.x gridSize) (snap dst.y gridSize) then f.total else 0) := by
  unfold accumFlow
  rw [h]

lemma flowCellKeys_some {m : PlaybackMaps} {f : FlowLite} {o : NodeDatum} {dst : DestDatum}
    (gridSize : ℚ) (h : resolveFlow m f = some (o, dst)) :
    flowCellKeys m gridSize f =
      [cellKey (snap o.x gridSize) (snap o.y gridSize),
       cellKey (snap dst.x gridSize) (snap dst.y gridSize)] := by
  unfold flowCellKeys
  rw [h]

lemma sum_accumFlow (m : PlaybackMaps) (gridSize : ℚ) (S : Finset (ℤ × ℤ))
    (c : ℤ × ℤ → ℚ) (f : FlowLite)
    (hk : ∀ k ∈ flowCellKeys m gridSize f, k ∈ S) :
    ∑ k ∈ S, accumFlow m gridSize c f k = ∑ k ∈ S, c k := by
  cases hres : resolveFlow m f with
  | none => rw [accumFlow_none gridSize c hres]
  | some pair =>
    obtain ⟨o, dst⟩ := pair
    rw [flowCellKeys_some gridSize hres] at hk
    rw [accumFlow_some gridSize c hres]
    have hoK : cellKey (snap o.x gridSize) (snap o.y gridSize) ∈ S :=
      hk _ (by simp)
    have hdK : cellKey (snap dst.x gridSize) (snap dst.y gridSize) ∈ S :=
      hk _ (by simp)
    have hsub :
        ∑ k ∈ S,
          (c k - (if k = cellKey (snap o.x gridSize) (snap o.y gridSize) then f.total else 0)
               + (if k = cellKey (snap dst.x gridSize) (snap dst.y gridSize) then f.total else 0)) =
          ∑ k ∈ S, c k
            - ∑ k ∈ S, (if k = cellKey (snap o.x gridSize) (snap o.y gridSize) then f.total else 0)
            + ∑ k ∈ S, (if k = cellKey (snap dst.x gridSize) (snap dst.y gridSize) then f.total else 0) := by
      rw [Finset.sum_add_distrib, Finset.sum_sub_distrib]
    rw [hsub,
      Finset.sum_ite_eq' S (cellKey (snap o.x gridSize) (snap o.y gridSize)) fun _ => f.total,
      Finset.sum_ite_eq' S (cellKey (snap dst.x gridSize) (snap dst.y gridSize)) fun _ => f.total,
      if_pos hoK, if_pos hdK]
    ring

lemma sum_rawCells_aux (m : PlaybackMaps) (gridSize : ℚ) (S : Finset (ℤ × ℤ)) :
    ∀ (flows : List FlowLite) (c : ℤ × ℤ → ℚ),
      (∀ f ∈ flows, ∀ k ∈ flowCellKeys m gridSize f, k ∈ S) →
      ∑ k ∈ S, flows.foldl (accumFlow m gridSize) c k = ∑ k ∈ S, c k
  | [], c, _ => by simp
  | f :: flows, c, hS => by
    rw [List.foldl_cons]
    rw [sum_rawCells_aux m gridSize S flows (accumFlow m gridSize c f)
      (fun g hg => hS g (List.mem_cons_of_mem f hg))]
    exact sum_accumFlow m gridSize S c f (hS f (List.mem_cons_self f flows))

lemma rawCells_untouched (m : PlaybackMaps) (gridSize : ℚ) (k : ℤ × ℤ) :
    ∀ (flows : List FlowLite) (c : ℤ × ℤ → ℚ),
      (∀ f ∈ flows, k ∉ flowCellKeys m gridSize f) →
      flows.foldl (accumFlow m gridSize) c k = c k
  | [], _, _ => rfl
  | f :: flows, c, hk => by
    rw [List.foldl_cons,
      rawCells_untouched m gridSize k flows (accumFlow m gridSize c f)
        (fun g hg => hk g (List.mem_cons_of_mem f hg))]
    have hkf := hk f (List.mem_cons_self f flows)
    cases hres : resolveFlow m f with
    | none => rw [accumFlow_none gridSize c hres]
    | some pair =>
      obtain ⟨o, dst⟩ := pair
      rw [flowCellKeys_some gridSize hres] at hkf
      simp only [List.mem_cons, List.not_mem_nil, or_false, not_or] at hkf
      rw [accumFlow_some gridSize c hres]
      show (c k - if k = cellKey (snap o.x gridSize) (snap o.y gridSize) then f.total else 0)
          + (if k = cellKey (snap dst.x gridSize) (snap dst.y gridSize) then f.total else 0) =
        c k
      rw [if_neg hkf.1, if_neg hkf.2]
      ring

/-- **C7** (confirmed).  For a flow set whose origin and destination ids all
resolve, the raw net-retention accumulation (`net -= total` at the snapped
origin cell, `net += total` at the snapped destination cell) sums to zero
over all grid cells, in exact arithmetic: the sum over any cell set covering
the touched cells is zero, and every cell outside the touched ones holds
exactly zero. -/
theorem c7_conservation (m : PlaybackMaps) (gridSize : ℚ) (flows : List FlowLite)
    (S : Finset (ℤ × ℤ))
    (hres : ∀ f ∈ flows, (resolveFlow m f).isSome = true)
    (hS : ∀ f ∈ flows, ∀ k ∈ flowCellKeys m gridSize f, k ∈ S) :
    ∑ k ∈ S, rawCells m gridSize flows k = 0 ∧
    ∀ k : ℤ × ℤ, (∀ f ∈ flows, k ∉ flowCellKeys m gridSize f) →
      rawCells m gridSize flows k = 0 := by
  constructor
  · unfold rawCells
    rw [sum_rawCells_aux m gridSize S flows (fun _ => 0) hS]
    simp
  · intro k hk
    exact rawCells_untouched m gridSize k flows (fun _ => 0) hk

/-- **C7 witness**: one flow from node `n0 = (0,0)` to destination
`d0 = (1,0)` with total `7`, grid spacing `1`, summed over the two touched
cells. -/
theorem c7_conservation_witness :
    ∑ k ∈ ({((0 : ℤ), (0 : ℤ)), ((10000 : ℤ), (0 : ℤ))} : Finset (ℤ × ℤ)),
      rawCells
        ⟨fun s => if s = "n0" then some ⟨0, 0⟩ else none,
         fun s => if s = "d0" then some ⟨1, 0, 5⟩ else none⟩
        1 [⟨"n0", "d0", 7, 0⟩] k = 0 := by
  refine (c7_conservation _ 1 _ _ ?_ ?_).1
  · intro f hf
    rw [List.mem_singleton] at hf
    subst hf
    rfl
  · intro f hf k hkey
    rw [List.mem_singleton] at hf
    subst hf
    have : flowCellKeys
        ⟨fun s => if s = "n0" then some ⟨0, 0⟩ else none,
         fun s => if s = "d0" then some ⟨1, 0, 5⟩ else none⟩
        1 ⟨"n0", "d0", 7, 0⟩ = [((0 : ℤ), (0 : ℤ)), ((10000 : ℤ), (0 : ℤ))] := by
      norm_num [flowCellKeys, resolveFlow, snap, cellKey, jsRound]
    rw [this] at hkey
    simp only [List.mem_cons, List.mem_singleton, List.not_mem_nil, or_false] at hkey
    rcases hkey with h | h <;> simp [h]

/-! ## Silent skipping of unresolvable flows (claim C10) -/

lemma particleCount_resolve_none {m : PlaybackMaps} {f : FlowLite} (boost : Bool)
    (h : resolveFlow m f = none) : particleCount m boost f = 0 := by
  unfold particleCount
  rw [h]

lemma one_le_toNat_max_one (X : ℤ) : 1 ≤ (max 1 X).toNat := by
  have := Int.toNat_le_toNat (le_max_left 1 X)
  simpa using this

lemma particleCount_resolve_some {m : PlaybackMaps} {f : FlowLite}
    {o : NodeDatum} {dst : DestDatum} (boost : Bool)
    (h : resolveFlow m f = some (o, dst)) : 1 ≤ particleCount m boost f := by
  unfold particleCount
  rw [h]
  exact one_le_toNat_max_one _

/-- **C10** (confirmed).  A flow whose origin or destination id does not
resolve in the provided maps is silently skipped by both playback components:
it contributes zero particles in `FlowParticles` and leaves the grid state of
`NetRetentionPeaks` unchanged; every flow that resolves contributes at least
one particle and applies exactly the origin/destination cell updates. -/
theorem c10_unresolved_flows_skipped (m : PlaybackMaps) (boost : Bool) (gridSize : ℚ)
    (cells : ℤ × ℤ → ℚ) (f : FlowLite) :
    (resolveFlow m f = none ↔ m.nodesById f.o = none ∨ m.destsById f.d = none) ∧
    (resolveFlow m f = none →
      particleCount m boost f = 0 ∧ accumFlow m gridSize cells f = cells) ∧
    (∀ (o : NodeDatum) (dst : DestDatum), resolveFlow m f = some (o, dst) →
      1 ≤ particleCount m boost f ∧
      accumFlow m gridSize cells f = fun k =>
        cells k - (if k = cellKey (snap o.x gridSize) (snap o.y gridSize) then f.total else 0)
                + (if k = cellKey (snap dst.x gridSize) (snap dst.y gridSize) then f.total else 0)) := by
  refine ⟨?_, fun h => ⟨particleCount_resolve_none boost h, accumFlow_none gridSize cells h⟩,
    fun o dst h => ⟨particleCount_resolve_some boost h, accumFlow_some gridSize cells h⟩⟩
  cases hno : m.nodesById f.o <;> cases hd : m.destsById f.d <;>
    simp [resolveFlow, hno, hd]

/-- **C10 witness**: at a concrete map (node `n0`, destination `d0`), the flow
`nX → d0` is skipped by both components, and the flow `n0 → d0` is processed. -/
theorem c10_unresolved_flows_skipped_witness :
    (particleCount
        ⟨fun s => if s = "n0" then some ⟨0, 0⟩ else none,
         fun s => if s = "d0" then some ⟨1, 0, 5⟩ else none⟩ false
        ⟨"nX", "d0", 3, 0⟩ = 0 ∧
      accumFlow
        ⟨fun s => if s = "n0" then some ⟨0, 0⟩ else none,
         fun s => if s = "d0" then some ⟨1, 0, 5⟩ else none⟩ 1 (fun _ => 0)
        ⟨"nX", "d0", 3, 0⟩ = fun _ => 0) ∧
    (1 ≤ particleCount
        ⟨fun s => if s = "n0" then some ⟨0, 0⟩ else none,
         fun s => if s = "d0" then some ⟨1, 0, 5⟩ else none⟩ false
        ⟨"n0", "d0", 3, 0⟩) := by
  constructor
  · exact (c10_unresolved_flows_skipped _ false 1 (fun _ => 0) _).2.1
      (by simp [resolveFlow])
  · exact ((c10_unresolved_flows_skipped _ false 1 (fun _ => 0) _).2.2 ⟨0, 0⟩ ⟨1, 0, 5⟩
      (by simp [resolveFlow])).1

/-! ## Row acceptance (claim C2) -/

lemma rowSkipped_eq_false_iff (r : Row) : rowSkipped r = false ↔
    ∃ oLon oLat dLon dLat q : ℚ,
      r.oLon = some oLon ∧ r.oLat = some oLat ∧ r.dLon = some dLon ∧
      r.dLat = some dLat ∧ r.qty = some q ∧ 0 < q := by
  obtain ⟨o1, o2, o3, o4, oq, oh⟩ := r
  cases o1 <;> cases o2 <;> cases o3 <;> cases o4 <;> cases oq <;>
    simp [rowSkipped, not_le]

lemma processRow_skip {r : Row} (s : IngestState) (h : rowSkipped r = true) :
    processRow s r = s := by
  obtain ⟨o1, o2, o3, o4, oq, oh⟩ := r
  cases o1 <;> cases o2 <;> cases o3 <;> cases o4 <;> cases oq <;>
      simp_all [rowSkipped, processRow]

lemma processRow_accept {r : Row} {oLon oLat dLon dLat q : ℚ} (s : IngestState)
    (h1 : r.oLon = some oLon) (h2 : r.oLat = some oLat) (h3 : r.dLon = some dLon)
    (h4 : r.dLat = some dLat) (h5 : r.qty = some q) (hq : 0 < q) :
    processRow s r = acceptRow s oLon oLat dLon dLat q r.hour := by
  obtain ⟨o1, o2, o3, o4, oq, oh⟩ := r
  simp only [Row.oLon] at h1
  simp only [Row.oLat] at h2
  simp only [Row.dLon] at h3
  simp only [Row.dLat] at h4
  simp only [Row.qty] at h5
  subst h1 h2 h3 h4 h5
  simp [processRow, not_le.mpr hq]

/-- The row-invalidity predicate exactly as the spec words it (§4.1, §3): any
numeric field non-finite (including the hour), quantity ≤ 0, or hour outside
`[0, 23]`. -/
def specRowInvalid (r : Row) : Bool :=
  rowSkipped r ||
    (match r.hour with
     | none => true
     | some q => decide (q < 0 ∨ 23 < q))

/-- **C2 counterexample**.  A row whose `hour` is 30 is invalid per the claim,
yet the ingestor accepts it: it adds the quantity to the flow's total (and to
the destination's inbound), so it does *not* hold that such a row contributes
nothing. -/
theorem c2_counterexample :
    specRowInvalid ⟨some 0, some 0, some 1, some 0, some 5, some 30⟩ = true ∧
    ((processRow IngestState.init ⟨some 0, some 0, some 1, some 0, some 5, some 30⟩).flows
        (coordKey 0 0, coordKey 1 0)).total = 5 ∧
    ((IngestState.init).flows (coordKey 0 0, coordKey 1 0)).total = 0 ∧
    processRow IngestState.init ⟨some 0, some 0, some 1, some 0, some 5, some 30⟩ ≠
      IngestState.init := by
  refine ⟨by norm_num [specRowInvalid, rowSkipped], ?_, rfl, ?_⟩
  · norm_num [processRow, acceptRow, IngestState.init, FlowAcc.init]
  · intro heq
    have h5 :
        ((processRow IngestState.init ⟨some 0, some 0, some 1, some 0, some 5, some 30⟩).flows
          (coordKey 0 0, coordKey 1 0)).total = 5 := by
      norm_num [processRow, acceptRow, IngestState.init, FlowAcc.init]
    rw [heq] at h5
    norm_num [IngestState.init, FlowAcc.init] at h5

/-- **C2 amended**.  A row is skipped wholesale (contributes to no node,
destination, flow total, or hourly bucket) iff a *coordinate or quantity*
field is non-finite or the quantity is ≤ 0 — the hour takes no part in the
skip decision.  An out-of-range or non-finite hour only suppresses the hourly
bucket contribution of an otherwise accepted row. -/
theorem c2_amended (s : IngestState) (r : Row) :
    (processRow s r = s ↔ rowSkipped r = true) ∧
    (hourSlot r.hour = none →
      ∀ (fK : (ℤ × ℤ) × (ℤ × ℤ)) (h : Fin 24),
        ((processRow s r).flows fK).hourly h = (s.flows fK).hourly h) := by
  constructor
  · constructor
    · intro heq
      by_contra hns
      have hfalse : rowSkipped r = false := by
        cases hsk : rowSkipped r
        · rfl
        · exact absurd hsk hns
      obtain ⟨oLon, oLat, dLon, dLat, q, h1, h2, h3, h4, h5, hq⟩ :=
        (rowSkipped_eq_false_iff r).mp hfalse
      rw [processRow_accept s h1 h2 h3 h4 h5 hq] at heq
      have htot := congrArg
        (fun st => (st.flows (coordKey oLon oLat, coordKey dLon dLat)).total) heq
      simp [acceptRow] at htot
      linarith
    · intro h
      exact processRow_skip s h
  · intro hnone fK h
    cases hsk : rowSkipped r
    · obtain ⟨oLon, oLat, dLon, dLat, q, h1, h2, h3, h4, h5, hq⟩ :=
        (rowSkipped_eq_false_iff r).mp hsk
      rw [processRow_accept s h1 h2 h3 h4 h5 hq]
      by_cases hk : fK = (coordKey oLon oLat, coordKey dLon dLat)
      · simp [acceptRow, hk, hnone]
      · simp [acceptRow, hk]
    · rw [processRow_skip s hsk]

/-- **C2 amended witness**: a fully valid row with hour `NaN` is accepted
(the state changes), and its hourly buckets stay untouched. -/
theorem c2_amended_witness :
    ¬ (processRow IngestState.init ⟨some 0, some 0, some 1, some 0, some 5, none⟩ =
        IngestState.init) ∧
    ((processRow IngestState.init ⟨some 0, some 0, some 1, some 0, some 5, none⟩).flows
        (coordKey 0 0, coordKey 1 0)).hourly 3 =
      ((IngestState.init).flows (coordKey 0 0, coordKey 1 0)).hourly 3 := by
  constructor
  · intro heq
    have hs := (c2_amended IngestState.init
      ⟨some 0, some 0, some 1, some 0, some 5, none⟩).1.mp heq
    norm_num [rowSkipped] at hs
  · exact (c2_amended IngestState.init
      ⟨some 0, some 0, some 1, some 0, some 5, none⟩).2 rfl
      (coordKey 0 0, coordKey 1 0) 3

/-! ## Bins versus total (claim C1) -/

/-- `values[i] ?? 0` as a total function on indices. -/
def hourTerm (v : Fin 24 → ℚ) (i : ℕ) : ℚ := if h : i < 24 then v ⟨i, h⟩ else 0

lemma foldl_add_eq (g : ℕ → ℚ) : ∀ (l : List ℕ) (c : ℚ),
    l.foldl (fun acc i => acc + g i) c = c + (l.map g).sum
  | [], c => by simp
  | i :: l, c => by
    rw [List.foldl_cons, foldl_add_eq g l (c + g i), List.map_cons, List.sum_cons]
    ring

lemma sumRange_eq_map (v : Fin 24 → ℚ) (s e : ℕ) :
    sumRange v s e = ((List.range' s (e - s)).map (hourTerm v)).sum := by
  show (List.range' s (e - s)).foldl (fun acc i => acc + hourTerm v i) 0 = _
  rw [foldl_add_eq, zero_add]

lemma sumRange_congr {v w : Fin 24 → ℚ} (hvw : ∀ h, v h = w h) (s e : ℕ) :
    sumRange v s e = sumRange w s e := by
  rw [sumRange_eq_map, sumRange_eq_map]
  congr 1
  apply List.map_congr_left
  intro i _
  unfold hourTerm
  split
  · exact hvw _
  · rfl

lemma bins_sum_eq_sumRange24 (v : Fin 24 → ℚ) :
    (binsOfHourly v).sum = sumRange v 0 24 := by
  show sumRange v 0 6 + sumRange v 6 12 + sumRange v 12 18 + sumRange v 18 24 =
    sumRange v 0 24
  rw [sumRange_eq_map, sumRange_eq_map, sumRange_eq_map, sumRange_eq_map, sumRange_eq_map]
  norm_num
  rw [← List.sum_append, ← List.map_append, ← List.sum_append, ← List.map_append,
    ← List.sum_append, ← List.map_append]
  have hsplit :
      List.range' 0 6 ++ List.range' 6 6 ++ List.range' 12 6 ++ List.range' 18 6 =
        List.range' 0 24 := rfl
  rw [hsplit]

lemma sumRange_zero_fn (s e : ℕ) : sumRange (fun _ => 0) s e = 0 := by
  rw [sumRange_eq_map]
  apply List.sum_eq_zero
  intro x hx
  obtain ⟨i, _, rfl⟩ := List.mem_map.mp hx
  unfold hourTerm
  split <;> rfl

lemma list_sum_map_add (f g : ℕ → ℚ) : ∀ l : List ℕ,
    (l.map fun i => f i + g i).sum = (l.map f).sum + (l.map g).sum
  | [] => by simp
  | i :: l => by
    rw [List.map_cons, List.sum_cons, list_sum_map_add f g l, List.map_cons,
      List.sum_cons, List.map_cons, List.sum_cons]
    ring

lemma list_sum_indicator_not_mem (a : ℕ) (q : ℚ) : ∀ l : List ℕ, a ∉ l →
    (l.map fun i => if i = a then q else 0).sum = 0
  | [], _ => rfl
  | i :: l, h => by
    simp only [List.mem_cons, not_or] at h
    rw [List.map_cons, List.sum_cons, if_neg (fun he => h.1 he.symm),
      list_sum_indicator_not_mem a q l h.2, zero_add]

lemma list_sum_indicator_mem (a : ℕ) (q : ℚ) : ∀ l : List ℕ, l.Nodup → a ∈ l →
    (l.map fun i => if i = a then q else 0).sum = q
  | i :: l, hnd, hmem => by
    obtain ⟨hni, hndl⟩ := List.nodup_cons.mp hnd
    rcases List.mem_cons.mp hmem with he | hl
    · rw [List.map_cons, List.sum_cons, if_pos he.symm,
        list_sum_indicator_not_mem a q l (he ▸ hni), add_zero]
    · have hia : i ≠ a := fun he => hni (he ▸ hl)
      rw [List.map_cons, List.sum_cons, if_neg hia,
        list_sum_indicator_mem a q l hndl hl, zero_add]

lemma sumRange24_update (v : Fin 24 → ℚ) (h₀ : Fin 24) (q : ℚ) :
    sumRange (fun h => if h₀ = h then v h + q else v h) 0 24 = sumRange v 0 24 + q := by
  rw [sumRange_eq_map, sumRange_eq_map]
  have hpt : ∀ i : ℕ, hourTerm (fun h => if h₀ = h then v h + q else v h) i =
      hourTerm v i + (if i = (h₀ : ℕ) then q else 0) := by
    intro i
    by_cases hi : i < 24
    · simp only [hourTerm, dif_pos hi]
      by_cases he : h₀ = (⟨i, hi⟩ : Fin 24)
      · rw [if_pos he, if_pos (by rw [he])]
      · rw [if_neg he, if_neg (fun hv => he (Fin.ext hv.symm)), add_zero]
    · simp only [hourTerm, dif_neg hi]
      have hne : i ≠ (h₀ : ℕ) := by
        intro hv
        apply hi
        rw [hv]
        exact h₀.isLt
      rw [if_neg hne, add_zero]
  rw [List.map_congr_left fun i _ => hpt i, list_sum_map_add]
  congr 1
  exact list_sum_indicator_mem _ q _ (List.nodup_range' _ _)
    (by simpa using h₀.isLt)

/-- The per-flow invariant: the accumulated total equals the sum of the
24 hourly buckets. -/
def TotalMatchesHourly (s : IngestState) : Prop :=
  ∀ fK, (s.flows fK).total = sumRange (s.flows fK).hourly 0 24

lemma acceptRow_inv {s : IngestState} {oLon oLat dLon dLat q : ℚ} {hour : Option ℚ}
    (hvalid : (hourSlot hour).isSome = true) (hinv : TotalMatchesHourly s) :
    TotalMatchesHourly (acceptRow s oLon oLat dLon dLat q hour) := by
  intro fK
  obtain ⟨h₀, hh₀⟩ := Option.isSome_iff_exists.mp hvalid
  by_cases hk : fK = (coordKey oLon oLat, coordKey dLon dLat)
  · simp only [acceptRow, if_pos hk]
    show (s.flows fK).total + q = sumRange (fun h => if hourSlot hour = some h
      then (s.flows fK).hourly h + q else (s.flows fK).hourly h) 0 24
    have hc : sumRange (fun h => if hourSlot hour = some h
        then (s.flows fK).hourly h + q else (s.flows fK).hourly h) 0 24 =
        sumRange (fun h => if h₀ = h then (s.flows fK).hourly h + q
          else (s.flows fK).hourly h) 0 24 :=
      sumRange_congr (fun h => by rw [hh₀]; simp) 0 24
    rw [hc, sumRange24_update, hinv fK]
  · simp only [acceptRow, if_neg hk]
    exact hinv fK

lemma foldl_rows_inv : ∀ (rows : List Row) (s : IngestState),
    (∀ r ∈ rows, rowSkipped r = false → (hourSlot r.hour).isSome = true) →
    TotalMatchesHourly s → TotalMatchesHourly (rows.foldl processRow s)
  | [], s, _, hinv => hinv
  | r :: rows, s, hH, hinv => by
    rw [List.foldl_cons]
    refine foldl_rows_inv rows (processRow s r)
      (fun g hg => hH g (List.mem_cons_of_mem r hg)) ?_
    cases hsk : rowSkipped r
    · obtain ⟨oLon, oLat, dLon, dLat, q, h1, h2, h3, h4, h5, hq⟩ :=
        (rowSkipped_eq_false_iff r).mp hsk
      rw [processRow_accept s h1 h2 h3 h4 h5 hq]
      exact acceptRow_inv (hH r (List.mem_cons_self r rows) hsk) hinv
    · rw [processRow_skip s hsk]
      exact hinv

/-- **C1 amended**.  For every materialized Flow, the sum of the four derived
bins equals the accumulated total (exactly, before emission rounding) —
*provided* every accepted row's hour is finite and lands in `[0, 24)`.  The
original claim's "no precondition on the hour values" does not hold. -/
theorem c1_amended (rows : List Row)
    (hH : ∀ r ∈ rows, rowSkipped r = false → (hourSlot r.hour).isSome = true)
    (fK : (ℤ × ℤ) × (ℤ × ℤ)) :
    (binsOfHourly ((ingest rows).flows fK).hourly).sum = ((ingest rows).flows fK).total := by
  have hinv : TotalMatchesHourly (ingest rows) := by
    refine foldl_rows_inv rows IngestState.init hH ?_
    intro fK
    show (0 : ℚ) = sumRange (fun _ => 0) 0 24
    rw [sumRange_zero_fn]
  rw [bins_sum_eq_sumRange24, ← hinv fK]

/-- **C1 amended witness**: one valid row with hour `3` and quantity `5`. -/
theorem c1_amended_witness :
    (binsOfHourly ((ingest [⟨some 0, some 0, some 1, some 0, some 5, some 3⟩]).flows
        (coordKey 0 0, coordKey 1 0)).hourly).sum =
      ((ingest [⟨some 0, some 0, some 1, some 0, some 5, some 3⟩]).flows
        (coordKey 0 0, coordKey 1 0)).total := by
  apply c1_amended
  intro r hr _
  rw [List.mem_singleton] at hr
  subst hr
  rfl

/-- **C1 counterexample**.  With an accepted row whose hour is `30` (outside
`[0,24)`), the flow's total is `5` but the bins sum to `0`: the claimed
invariant fails without the hour precondition (and `5` versus `0` is far
beyond any rounding tolerance). -/
theorem c1_counterexample :
    ((ingest [⟨some 0, some 0, some 1, some 0, some 5, some 30⟩]).flows
        (coordKey 0 0, coordKey 1 0)).total = 5 ∧
    (binsOfHourly ((ingest [⟨some 0, some 0, some 1, some 0, some 5, some 30⟩]).flows
        (coordKey 0 0, coordKey 1 0)).hourly).sum = 0 := by
  constructor
  · norm_num [ingest, processRow, acceptRow, FlowAcc.init, IngestState.init]
  · norm_num [ingest, processRow, acceptRow, binsOfHourly, Bins.sum, sumRange, List.range',
      hourSlot, FlowAcc.init, IngestState.init]
    simp

/-! ## Cut monotonicity (claim C3) -/

/-- Every hourly bucket of every ingested flow is nonnegative. -/
def HourlyNonneg (s : IngestState) : Prop :=
  ∀ fK h, 0 ≤ (s.flows fK).hourly h

lemma acceptRow_hourly_nonneg {s : IngestState} {oLon oLat dLon dLat q : ℚ}
    {hour : Option ℚ} (hq : 0 ≤ q) (hinv : HourlyNonneg s) :
    HourlyNonneg (acceptRow s oLon oLat dLon dLat q hour) := by
  intro fK h
  by_cases hk : fK = (coordKey oLon oLat, coordKey dLon dLat)
  · simp only [acceptRow, if_pos hk]
    show (0 : ℚ) ≤ if hourSlot hour = some h then (s.flows fK).hourly h + q
      else (s.flows fK).hourly h
    split
    · have := hinv fK h
      linarith
    · exact hinv fK h
  · simp only [acceptRow, if_neg hk]
    exact hinv fK h

lemma foldl_rows_hourly_nonneg : ∀ (rows : List Row) (s : IngestState),
    HourlyNonneg s → HourlyNonneg (rows.foldl processRow s)
  | [], _, hinv => hinv
  | r :: rows, s, hinv => by
    rw [List.foldl_cons]
    refine foldl_rows_hourly_nonneg rows (processRow s r) ?_
    cases hsk : rowSkipped r
    · obtain ⟨oLon, oLat, dLon, dLat, q, h1, h2, h3, h4, h5, hq⟩ :=
        (rowSkipped_eq_false_iff r).mp hsk
      rw [processRow_accept s h1 h2 h3 h4 h5 hq]
      exact acceptRow_hourly_nonneg hq.le hinv
    · rw [processRow_skip s hsk]
      exact hinv

lemma ingest_hourly_nonneg (rows : List Row) : HourlyNonneg (ingest rows) :=
  foldl_rows_hourly_nonneg rows IngestState.init fun _ _ => le_refl 0

lemma sumRange_nonneg {v : Fin 24 → ℚ} (hv : ∀ h, 0 ≤ v h) (s e : ℕ) :
    0 ≤ sumRange v s e := by
  rw [sumRange_eq_map]
  apply List.sum_nonneg
  intro x hx
  obtain ⟨i, _, rfl⟩ := List.mem_map.mp hx
  unfold hourTerm
  split
  · exact hv _
  · exact le_refl 0

lemma roundTo_6_99_100 : roundTo 6 (99/100) = 99/100 := by
  norm_num [roundTo, jsRound]

/-- What `buildCutsFromBins` actually guarantees on nonnegative bins. -/
lemma buildCuts_chain (b : Bins) (hb0 : 0 ≤ b.b0) (hb1 : 0 ≤ b.b1)
    (hb2 : 0 ≤ b.b2) (hb3 : 0 ≤ b.b3) :
    0 ≤ (buildCutsFromBins b).c0 ∧
    (buildCutsFromBins b).c0 ≤ (buildCutsFromBins b).c1 ∧
    (buildCutsFromBins b).c1 ≤ 1 ∧
    0 ≤ (buildCutsFromBins b).c2 ∧
    (buildCutsFromBins b).c2 ≤ 99/100 ∧
    ((buildCutsFromBins b).c1 ≤ 99/100 →
      (buildCutsFromBins b).c1 ≤ (buildCutsFromBins b).c2) := by
  unfold buildCutsFromBins
  by_cases ht : b.sum ≤ 0
  · rw [if_pos ht]
    norm_num
  · rw [if_neg ht]
    have htpos : 0 < b.sum := lt_of_not_le ht
    have hsum : b.sum = b.b0 + b.b1 + b.b2 + b.b3 := rfl
    have hu1 : (0 : ℚ) ≤ b.b0 / b.sum := div_nonneg hb0 htpos.le
    have hu2 : (0 : ℚ) ≤ (b.b0 + b.b1) / b.sum := div_nonneg (by linarith) htpos.le
    have hu3 : (0 : ℚ) ≤ (b.b0 + b.b1 + b.b2) / b.sum := div_nonneg (by linarith) htpos.le
    have hu1le1 : b.b0 / b.sum ≤ 1 := (div_le_one htpos).mpr (by linarith)
    have hu2le1 : (b.b0 + b.b1) / b.sum ≤ 1 := (div_le_one htpos).mpr (by linarith)
    have hu3le1 : (b.b0 + b.b1 + b.b2) / b.sum ≤ 1 := (div_le_one htpos).mpr (by linarith)
    have h12 : b.b0 / b.sum ≤ (b.b0 + b.b1) / b.sum :=
      (div_le_div_iff_of_pos_right htpos).mpr (by linarith)
    have h23 : (b.b0 + b.b1) / b.sum ≤ (b.b0 + b.b1 + b.b2) / b.sum :=
      (div_le_div_iff_of_pos_right htpos).mpr (by linarith)
    have hmin0 : (0 : ℚ) ≤ min ((b.b0 + b.b1 + b.b2) / b.sum) (99/100) :=
      le_min hu3 (by norm_num)
    have hmin1 : min ((b.b0 + b.b1 + b.b2) / b.sum) (99/100) ≤ 1 :=
      le_trans (min_le_right _ _) (by norm_num)
    rw [clamp01_of_mem hu1 hu1le1, clamp01_of_mem hu2 hu2le1, clamp01_of_mem hmin0 hmin1]
    refine ⟨?_, ?_, ?_, ?_, ?_, ?_⟩
    · have := roundTo_le_roundTo 6 hu1
      rwa [roundTo_zero] at this
    · exact roundTo_le_roundTo 6 h12
    · have := roundTo_le_roundTo 6 hu2le1
      rwa [roundTo_one] at this
    · have := roundTo_le_roundTo 6 hmin0
      rwa [roundTo_zero] at this
    · have := roundTo_le_roundTo 6 (min_le_right ((b.b0 + b.b1 + b.b2) / b.sum) (99/100))
      rwa [roundTo_6_99_100] at this
    · intro hc1
      by_cases h3 : (b.b0 + b.b1 + b.b2) / b.sum ≤ 99/100
      · rw [min_eq_left h3]
        exact roundTo_le_roundTo 6 h23
      · rw [min_eq_right (le_of_not_le h3), roundTo_6_99_100]
        exact hc1

/-- The cuts triple of an ingested flow (`flows.json`; hourly-frame entries
copy exactly these values). -/
def ingestedCuts (rows : List Row) (fK : (ℤ × ℤ) × (ℤ × ℤ)) : Cuts :=
  buildCutsFromBins (binsOfHourly ((ingest rows).flows fK).hourly)

/-- **C3 counterexample**.  Two accepted rows of the same flow at hours 0 and
6 (nothing after noon) produce `bins = [1,1,0,0]` and
`cuts = [0.5, 1, 0.99]`: `cuts[1] > cuts[2]`, so the claimed chain
`cuts[0] ≤ cuts[1] ≤ cuts[2] ≤ 0.99` is violated (only `c3` is capped at
0.99, `c2` is not). -/
theorem c3_counterexample :
    (ingestedCuts [⟨some 0, some 0, some 1, some 0, some 1, some 0⟩,
                   ⟨some 0, some 0, some 1, some 0, some 1, some 6⟩]
        (coordKey 0 0, coordKey 1 0)).c1 = 1 ∧
    (ingestedCuts [⟨some 0, some 0, some 1, some 0, some 1, some 0⟩,
                   ⟨some 0, some 0, some 1, some 0, some 1, some 6⟩]
        (coordKey 0 0, coordKey 1 0)).c2 = 99/100 ∧
    ¬ ((ingestedCuts [⟨some 0, some 0, some 1, some 0, some 1, some 0⟩,
                      ⟨some 0, some 0, some 1, some 0, some 1, some 6⟩]
          (coordKey 0 0, coordKey 1 0)).c1 ≤
        (ingestedCuts [⟨some 0, some 0, some 1, some 0, some 1, some 0⟩,
                       ⟨some 0, some 0, some 1, some 0, some 1, some 6⟩]
            (coordKey 0 0, coordKey 1 0)).c2) := by
  have hcuts : ingestedCuts [⟨some 0, some 0, some 1, some 0, some 1, some 0⟩,
      ⟨some 0, some 0, some 1, some 0, some 1, some 6⟩]
      (coordKey 0 0, coordKey 1 0) = ⟨1/2, 1, 99/100⟩ := by
    have hbins : binsOfHourly ((ingest
        [⟨some 0, some 0, some 1, some 0, some 1, some 0⟩,
         ⟨some 0, some 0, some 1, some 0, some 1, some 6⟩]).flows
        (coordKey 0 0, coordKey 1 0)).hourly = ⟨1, 1, 0, 0⟩ := by
      norm_num [ingest, processRow, acceptRow, binsOfHourly, Bins.sum, sumRange,
        List.range', hourSlot, FlowAcc.init, IngestState.init]
      simp +decide [Fin.ext_iff]
    rw [ingestedCuts, hbins]
    norm_num [buildCutsFromBins, Bins.sum, clamp01, roundTo, jsRound]
  rw [hcuts]
  norm_num

/-- **C3 amended**.  For every ingested flow the cuts satisfy
`0 ≤ cuts[0] ≤ cuts[1] ≤ 1` and `0 ≤ cuts[2] ≤ 0.99`, and the full claimed
chain `cuts[0] ≤ cuts[1] ≤ cuts[2] ≤ 0.99` holds whenever `cuts[1] ≤ 0.99`
(equivalently, whenever the first three bins do not already exceed 99% of the
total).  Hourly-frame entries copy these same triples. -/
theorem c3_amended (rows : List Row) (fK : (ℤ × ℤ) × (ℤ × ℤ)) :
    0 ≤ (ingestedCuts rows fK).c0 ∧
    (ingestedCuts rows fK).c0 ≤ (ingestedCuts rows fK).c1 ∧
    (ingestedCuts rows fK).c1 ≤ 1 ∧
    0 ≤ (ingestedCuts rows fK).c2 ∧
    (ingestedCuts rows fK).c2 ≤ 99/100 ∧
    ((ingestedCuts rows fK).c1 ≤ 99/100 →
      (ingestedCuts rows fK).c0 ≤ (ingestedCuts rows fK).c1 ∧
      (ingestedCuts rows fK).c1 ≤ (ingestedCuts rows fK).c2 ∧
      (ingestedCuts rows fK).c2 ≤ 99/100) := by
  have hnn := ingest_hourly_nonneg rows
  have hb := buildCuts_chain (binsOfHourly ((ingest rows).flows fK).hourly)
    (sumRange_nonneg (hnn fK) 0 6) (sumRange_nonneg (hnn fK) 6 12)
    (sumRange_nonneg (hnn fK) 12 18) (sumRange_nonneg (hnn fK) 18 24)
  obtain ⟨p0, p1, p2, p3, p4, p5⟩ := hb
  exact ⟨p0, p1, p2, p3, p4, fun hc => ⟨p1, p5 hc, p4⟩⟩

/-- **C3 amended witness**: a flow active at hours 0, 6, 12 and 18 has cuts
`[0.25, 0.5, 0.75]`, and since `cuts[1] ≤ 0.99` the full chain holds. -/
theorem c3_amended_witness :
    (ingestedCuts [⟨some 0, some 0, some 1, some 0, some 1, some 0⟩,
                   ⟨some 0, some 0, some 1, some 0, some 1, some 6⟩,
                   ⟨some 0, some 0, some 1, some 0, some 1, some 12⟩,
                   ⟨some 0, some 0, some 1, some 0, some 1, some 18⟩]
        (coordKey 0 0, coordKey 1 0)).c0 ≤
      (ingestedCuts [⟨some 0, some 0, some 1, some 0, some 1, some 0⟩,
                     ⟨some 0, some 0, some 1, some 0, some 1, some 6⟩,
                     ⟨some 0, some 0, some 1, some 0, some 1, some 12⟩,
                     ⟨some 0, some 0, some 1, some 0, some 1, some 18⟩]
          (coordKey 0 0, coordKey 1 0)).c1 ∧
    (ingestedCuts [⟨some 0, some 0, some 1, some 0, some 1, some 0⟩,
                   ⟨some 0, some 0, some 1, some 0, some 1, some 6⟩,
                   ⟨some 0, some 0, some 1, some 0, some 1, some 12⟩,
                   ⟨some 0, some 0, some 1, some 0, some 1, some 18⟩]
        (coordKey 0 0, coordKey 1 0)).c1 ≤
      (ingestedCuts [⟨some 0, some 0, some 1, some 0, some 1, some 0⟩,
                     ⟨some 0, some 0, some 1, some 0, some 1, some 6⟩,
                     ⟨some 0, some 0, some 1, some 0, some 1, some 12⟩,
                     ⟨some 0, some 0, some 1, some 0, some 1, some 18⟩]
          (coordKey 0 0, coordKey 1 0)).c2 ∧
    (ingestedCuts [⟨some 0, some 0, some 1, some 0, some 1, some 0⟩,
                   ⟨some 0, some 0, some 1, some 0, some 1, some 6⟩,
                   ⟨some 0, some 0, some 1, some 0, some 1, some 12⟩,
                   ⟨some 0, some 0, some 1, some 0, some 1, some 18⟩]
        (coordKey 0 0, coordKey 1 0)).c2 ≤ 99/100 := by
  apply (c3_amended
    [⟨some 0, some 0, some 1, some 0, some 1, some 0⟩,
     ⟨some 0, some 0, some 1, some 0, some 1, some 6⟩,
     ⟨some 0, some 0, some 1, some 0, some 1, some 12⟩,
     ⟨some 0, some 0, some 1, some 0, some 1, some 18⟩]
    (coordKey 0 0, coordKey 1 0)).2.2.2.2.2
  have hbins : binsOfHourly ((ingest
      [⟨some 0, some 0, some 1, some 0, some 1, some 0⟩,
       ⟨some 0, some 0, some 1, some 0, some 1, some 6⟩,
       ⟨some 0, some 0, some 1, some 0, some 1, some 12⟩,
       ⟨some 0, some 0, some 1, some 0, some 1, some 18⟩]).flows
      (coordKey 0 0, coordKey 1 0)).hourly = ⟨1, 1, 1, 1⟩ := by
    norm_num [ingest, processRow, acceptRow, binsOfHourly, Bins.sum, sumRange,
      List.range', hourSlot, FlowAcc.init, IngestState.init]
    simp +decide [Fin.ext_iff]
  rw [ingestedCuts, hbins]
  norm_num [buildCutsFromBins, Bins.sum, clamp01, roundTo, jsRound]

/-! ## Frame entries (claim C4) -/

lemma mem_insertByTotalDesc {α : Type} (total : α → ℚ) (x a : α) :
    ∀ l : List α, a ∈ insertByTotalDesc total x l ↔ a = x ∨ a ∈ l
  | [] => by simp [insertByTotalDesc]
  | y :: ys => by
    unfold insertByTotalDesc
    split
    · simp [List.mem_cons]
    · simp only [List.mem_cons, mem_insertByTotalDesc total x a ys]
      tauto

lemma mem_sortByTotalDesc {α : Type} (total : α → ℚ) (a : α) :
    ∀ l : List α, a ∈ sortByTotalDesc total l ↔ a ∈ l
  | [] => by simp [sortByTotalDesc]
  | x :: xs => by
    unfold sortByTotalDesc
    rw [mem_insertByTotalDesc, mem_sortByTotalDesc total a xs, List.mem_cons]

/-- Flow active only at hour 0 (producible by one accepted row with
quantity 1 and hour 0). -/
def fbOne : FlowBase := ⟨"n0", "d0", 1, fun h => if h.val = 0 then 1 else 0⟩

/-- Flow active at hours 0 and 6 with the same hour-0 value as `fbOne`
(producible by two accepted rows with quantity 1 at hours 0 and 6). -/
def fbTwo : FlowBase := ⟨"n0", "d0", 2, fun h => if h.val = 0 ∨ h.val = 6 then 1 else 0⟩

/-- Modelled from the spec (§4.4), for comparison only: bins "re-derived for
that hour alone using the same per-hour value" place that value in the hour's
own quadrant bin and leave the others at zero. -/
def specHourBins (value : ℚ) (h : Fin 24) : Bins :=
  if h.val < 6 then ⟨value, 0, 0, 0⟩
  else if h.val < 12 then ⟨0, value, 0, 0⟩
  else if h.val < 18 then ⟨0, 0, value, 0⟩
  else ⟨0, 0, 0, value⟩

/-- **C4 counterexample**.  Two flows with the *same* hour-0 value get
*different* hour-0 frame entries (their global bins differ), so the emitted
entry is not derived from that hour's value alone; the entry's bins and cuts
are exactly the flow's global aggregates, and differ from the spec's
hour-alone derivation. -/
theorem c4_counterexample :
    fbOne.hourly 0 = fbTwo.hourly 0 ∧
    0 < fbOne.hourly 0 ∧ 0 < fbTwo.hourly 0 ∧
    frameEntry fbOne 0 ≠ frameEntry fbTwo 0 ∧
    (frameEntry fbTwo 0).bins = round4Bins fbTwo.bins ∧
    (frameEntry fbTwo 0).cuts = fbTwo.cuts ∧
    (frameEntry fbTwo 0).bins ≠ specHourBins (fbTwo.hourly 0) 0 := by
  have hb1 : (frameEntry fbOne 0).bins = ⟨1, 0, 0, 0⟩ := by
    show round4Bins (binsOfHourly fbOne.hourly) = _
    have : binsOfHourly fbOne.hourly = ⟨1, 0, 0, 0⟩ := by
      norm_num [binsOfHourly, sumRange, List.range', fbOne]
    rw [this]
    norm_num [round4Bins, roundTo, jsRound]
  have hb2 : (frameEntry fbTwo 0).bins = ⟨1, 1, 0, 0⟩ := by
    show round4Bins (binsOfHourly fbTwo.hourly) = _
    have : binsOfHourly fbTwo.hourly = ⟨1, 1, 0, 0⟩ := by
      norm_num [binsOfHourly, sumRange, List.range', fbTwo]
    rw [this]
    norm_num [round4Bins, roundTo, jsRound]
  refine ⟨rfl, by norm_num [fbOne], by norm_num [fbTwo], ?_, rfl, rfl, ?_⟩
  · intro heq
    have hbe := congrArg FlowDatum.bins heq
    rw [hb1, hb2] at hbe
    simp [Bins.mk.injEq] at hbe
  · rw [hb2]
    have : fbTwo.hourly 0 = 1 := rfl
    rw [this]
    norm_num [specHourBins, Bins.mk.injEq]

/-- **C4 amended**.  The entry emitted into hour `h`'s frame for an active
flow has its `total` and its `w` re-derived from that hour's value alone
(`w` normalized against that hour's own min/max), but its `bins` and `cuts`
are copied from the flow's *global* aggregates (rounded to 4 digits for
bins). -/
theorem c4_amended (flows : List FlowBase) (h : Fin 24) (f : FlowBase)
    (hmem : f ∈ flows) (hpos : 0 < f.hourly h) :
    frameEntry f h ∈ mkFrame flows h ∧
    (frameEntry f h).total = roundTo 4 (f.hourly h) ∧
    (frameEntry f h).bins = round4Bins f.bins ∧
    (frameEntry f h).cuts = f.cuts ∧
    frameW flows h f = wPrepared (f.hourly h) (frameMin flows h) (frameMax flows h) := by
  refine ⟨?_, rfl, rfl, rfl, rfl⟩
  rw [mkFrame, mem_sortByTotalDesc]
  refine List.mem_map_of_mem _ ?_
  rw [hourActive, List.mem_filter]
  exact ⟨hmem, by simpa using hpos⟩

/-- **C4 amended witness**: `fbTwo` is active at hour 0 of the singleton flow
list `[fbTwo]`, and its entry carries the global bins and cuts. -/
theorem c4_amended_witness :
    frameEntry fbTwo 0 ∈ mkFrame [fbTwo] 0 ∧
    (frameEntry fbTwo 0).total = roundTo 4 (fbTwo.hourly 0) ∧
    (frameEntry fbTwo 0).bins = round4Bins fbTwo.bins ∧
    (frameEntry fbTwo 0).cuts = fbTwo.cuts ∧
    frameW [fbTwo] 0 fbTwo =
      wPrepared (fbTwo.hourly 0) (frameMin [fbTwo] 0) (frameMax [fbTwo] 0) :=
  c4_amended [fbTwo] 0 fbTwo (List.mem_singleton.mpr rfl) (by norm_num [fbTwo])

/-! ## Interpolation at integer hours (claim C5) -/

lemma lerp_zero (a b : ℚ) : lerp 0 a b = a := by
  unfold lerp
  ring

lemma wrapHour_fin (H : Fin 24) : wrapHour (H : ℚ) = (H : ℚ) := by
  have h0 : (0 : ℚ) ≤ ((H : ℕ) : ℚ) := by positivity
  have h24 : ((H : ℕ) : ℚ) < 24 := by exact_mod_cast H.isLt
  have hm1 : jsMod ((H : ℕ) : ℚ) 24 = ((H : ℕ) : ℚ) := by
    unfold jsMod jsTrunc
    have hdiv : (0 : ℚ) ≤ ((H : ℕ) : ℚ) / 24 := by positivity
    rw [if_pos hdiv]
    have hfl : ⌊((H : ℕ) : ℚ) / 24⌋ = 0 := by
      rw [Int.floor_eq_zero_iff]
      constructor
      · exact hdiv
      · rw [div_lt_one (by norm_num)]
        linarith
    rw [hfl]
    push_cast
    ring
  show jsMod (jsMod ((H : ℕ) : ℚ) 24 + 24) 24 = ((H : ℕ) : ℚ)
  rw [hm1]
  unfold jsMod jsTrunc
  have hdiv : (0 : ℚ) ≤ (((H : ℕ) : ℚ) + 24) / 24 := by positivity
  rw [if_pos hdiv]
  have hfl : ⌊(((H : ℕ) : ℚ) + 24) / 24⌋ = 1 := by
    rw [Int.floor_eq_iff]
    push_cast
    constructor
    · rw [le_div_iff₀ (by norm_num : (0:ℚ) < 24)]
      push_cast
      linarith
    · rw [div_lt_iff₀ (by norm_num : (0:ℚ) < 24)]
      push_cast
      linarith
  rw [hfl]
  push_cast
  ring

lemma alookup_not_mem {k : FlowKey} :
    ∀ l : List (FlowKey × FlowDatum), k ∉ l.map Prod.fst → alookup k l = none
  | [], _ => rfl
  | (k', e) :: rest, h => by
    simp only [List.map_cons, List.mem_cons, not_or] at h
    rw [alookup, if_neg (fun he => h.1 he.symm), alookup_not_mem rest h.2]

lemma alookup_mem_nodup {k : FlowKey} {e : FlowDatum} :
    ∀ l : List (FlowKey × FlowDatum), (l.map Prod.fst).Nodup → (k, e) ∈ l →
      alookup k l = some e
  | (k', e') :: rest, hnd, hmem => by
    rw [List.map_cons] at hnd
    obtain ⟨hni, hndr⟩ := List.nodup_cons.mp hnd
    rcases List.mem_cons.mp hmem with he | hr
    · have hk : k' = k := (congrArg Prod.fst he).symm
      have hev : e' = e := (congrArg Prod.snd he).symm
      rw [alookup, if_pos hk, hev]
    · have hkne : k' ≠ k := fun hkk => hni (by
        rw [hkk]
        exact List.mem_map.mpr ⟨(k, e), hr, rfl⟩)
      rw [alookup, if_neg hkne, alookup_mem_nodup rest hndr hr]

lemma mergeEntry_zero_not_mem (lower upper : List (FlowKey × FlowDatum)) (k : FlowKey)
    (h : k ∉ lower.map Prod.fst) : mergeEntry 0 lower upper k = none := by
  unfold mergeEntry
  rw [alookup_not_mem lower h]
  simp [lerp_zero]

lemma mergeEntry_zero_mem (lower upper : List (FlowKey × FlowDatum)) {k : FlowKey}
    {e : FlowDatum} (hnd : (lower.map Prod.fst).Nodup) (hmem : (k, e) ∈ lower) :
    mergeEntry 0 lower upper k =
      if e.total ≤ 1/10000 then none
      else some ⟨k.o, k.d, e.total, e.bins, cutsFromBins e.bins⟩ := by
  unfold mergeEntry
  rw [alookup_mem_nodup lower hnd hmem]
  simp only [lerp_zero, Option.map_some', Option.getD_some]

lemma filterMap_congr_mem {α β : Type} (f g : α → Option β) :
    ∀ l : List α, (∀ x ∈ l, f x = g x) → l.filterMap f = l.filterMap g
  | [], _ => rfl
  | x :: l, h => by
    rw [List.filterMap_cons, List.filterMap_cons, h x (List.mem_cons_self x l),
      filterMap_congr_mem f g l fun y hy => h y (List.mem_cons_of_mem x hy)]

lemma filterMap_mergeEntry_zero (lower upper : List (FlowKey × FlowDatum))
    (hnd : (lower.map Prod.fst).Nodup) :
    (interpKeys lower upper).filterMap (mergeEntry 0 lower upper) =
      lower.filterMap fun ke =>
        if ke.2.total ≤ 1/10000 then none
        else some ⟨ke.1.o, ke.1.d, ke.2.total, ke.2.bins, cutsFromBins ke.2.bins⟩ := by
  rw [interpKeys, List.filterMap_append]
  have hup : ((upper.map Prod.fst).filter fun k =>
      decide (k ∉ lower.map Prod.fst)).filterMap (mergeEntry 0 lower upper) = [] := by
    rw [List.filterMap_eq_nil]
    intro k hk
    rw [List.mem_filter] at hk
    exact mergeEntry_zero_not_mem lower upper k (by simpa using hk.2)
  rw [hup, List.append_nil, List.filterMap_map]
  apply filterMap_congr_mem
  intro ke hke
  show mergeEntry 0 lower upper ke.1 = _
  exact mergeEntry_zero_mem lower upper hnd hke

lemma finOfNat_val (H : Fin 24) : finOfNat (H : ℕ) = H := by
  apply Fin.ext
  simp [finOfNat, Nat.mod_eq_of_lt H.isLt]

/-- **C5 amended**.  At an integer hour position `H`, the interpolator's
merged set consists of exactly frame `H`'s entries whose total exceeds
`1e-4`, each with the frame's `total` and `bins` preserved but with `cuts`
*recomputed* from the stored bins via the unrounded `cutsFromBins` (which can
differ from the frame's stored 6-digit-rounded cuts), sorted descending by
total; `w` is then renormalized against this merged set's own min/max totals
(`interpolateW`), not copied from the frame. -/
theorem c5_amended (F : Fin 24 → List (FlowKey × FlowDatum)) (H : Fin 24)
    (hnd : ((F H).map Prod.fst).Nodup) :
    interpolateQ F (H : ℚ) =
      sortByTotalDesc FlowDatum.total ((F H).filterMap fun ke =>
        if ke.2.total ≤ 1/10000 then none
        else some ⟨ke.1.o, ke.1.d, ke.2.total, ke.2.bins, cutsFromBins ke.2.bins⟩) := by
  simp only [interpolateQ, wrapHour_fin H, Int.floor_natCast, Int.toNat_natCast,
    finOfNat_val H, Int.cast_natCast, sub_self]
  exact congrArg (sortByTotalDesc FlowDatum.total)
    (filterMap_mergeEntry_zero (F H) (F (finOfNat ((H : ℕ) + 1))) hnd)

/-- Flow active at hours 0, 6 and 12 (producible by three accepted rows with
quantity 1); its global bins are `[1,1,1,0]`, whose cut fractions involve
thirds and are therefore changed by the 6-digit rounding. -/
def fbThree : FlowBase :=
  ⟨"n0", "d0", 3, fun h => if h.val = 0 ∨ h.val = 6 ∨ h.val = 12 then 1 else 0⟩

lemma fbThree_bins : binsOfHourly fbThree.hourly = ⟨1, 1, 1, 0⟩ := by
  norm_num [binsOfHourly, sumRange, List.range', fbThree]

lemma fbThree_frame0 : mkFrame [fbThree] 0 =
    [⟨"n0", "d0", 1, ⟨1, 1, 1, 0⟩, ⟨333333/1000000, 666667/1000000, 99/100⟩⟩] := by
  have hact : hourActive [fbThree] 0 = [fbThree] := by
    simp [hourActive, List.filter, fbThree]
  have hcuts : buildCutsFromBins (⟨1, 1, 1, 0⟩ : Bins) =
      ⟨333333/1000000, 666667/1000000, 99/100⟩ := by
    norm_num [buildCutsFromBins, Bins.sum, clamp01, roundTo, jsRound]
  rw [mkFrame, hact, List.map_singleton]
  show insertByTotalDesc FlowDatum.total (frameEntry fbThree 0) [] = _
  rw [insertByTotalDesc]
  have hentry : frameEntry fbThree 0 =
      ⟨"n0", "d0", 1, ⟨1, 1, 1, 0⟩, ⟨333333/1000000, 666667/1000000, 99/100⟩⟩ := by
    rw [frameEntry, FlowBase.cuts, FlowBase.bins, fbThree_bins, hcuts]
    have hh0 : fbThree.hourly 0 = 1 := rfl
    rw [hh0]
    norm_num [round4Bins, roundTo, jsRound]
    exact ⟨rfl, rfl⟩
  rw [hentry]

lemma fbThree_frame1 : mkFrame [fbThree] 1 = [] := by
  have hact : hourActive [fbThree] 1 = [] := by
    simp [hourActive, List.filter, fbThree]
  rw [mkFrame, hact]
  rfl

/-- The 24 frame maps that `App.tsx` builds from the hourly frames of the
one-flow dataset `[fbThree]`. -/
def c5F : Fin 24 → List (FlowKey × FlowDatum) :=
  fun h => frameMapOf (mkFrame [fbThree] h)

lemma c5F_interp :
    interpolateQ c5F (0 : ℚ) = [⟨"n0", "d0", 1, ⟨1, 1, 1, 0⟩, ⟨1/3, 2/3, 99/100⟩⟩] := by
  have hw : wrapHour (0 : ℚ) = 0 := by
    norm_num [wrapHour, jsMod, jsTrunc]
  have h0 : c5F (finOfNat 0) =
      [(⟨"n0", "d0"⟩, ⟨"n0", "d0", 1, ⟨1, 1, 1, 0⟩,
        ⟨333333/1000000, 666667/1000000, 99/100⟩⟩)] := by
    show frameMapOf (mkFrame [fbThree] (finOfNat 0)) = _
    rw [show finOfNat 0 = 0 from rfl, fbThree_frame0]
    rfl
  have h1 : c5F (finOfNat (0 + 1)) = [] := by
    show frameMapOf (mkFrame [fbThree] (finOfNat (0 + 1))) = _
    rw [show finOfNat (0 + 1) = 1 from rfl, fbThree_frame1]
    rfl
  have hme := mergeEntry_zero_mem
    [(⟨"n0", "d0"⟩, (⟨"n0", "d0", 1, ⟨1, 1, 1, 0⟩,
      ⟨333333/1000000, 666667/1000000, 99/100⟩⟩ : FlowDatum))] []
    (k := ⟨"n0", "d0"⟩)
    (e := ⟨"n0", "d0", 1, ⟨1, 1, 1, 0⟩, ⟨333333/1000000, 666667/1000000, 99/100⟩⟩)
    (by simp) (by simp)
  have hcuts : cutsFromBins (⟨1, 1, 1, 0⟩ : Bins) = ⟨1/3, 2/3, 99/100⟩ := by
    norm_num [cutsFromBins, Bins.sum, clamp01]
  simp only [interpolateQ, hw, Int.floor_zero, Int.toNat_zero, Int.cast_zero, sub_zero,
    h0, h1]
  rw [show interpKeys
      [(⟨"n0", "d0"⟩, (⟨"n0", "d0", 1, ⟨1, 1, 1, 0⟩,
        ⟨333333/1000000, 666667/1000000, 99/100⟩⟩ : FlowDatum))] [] =
      [⟨"n0", "d0"⟩] from rfl]
  rw [List.filterMap_cons, hme, if_neg (by norm_num), hcuts]
  rfl

/-- **C5 counterexample**.  For the one-flow dataset `[fbThree]`, the
interpolator at integer hour position `0` does *not* reproduce frame `0`
exactly: the frame's stored cuts are the 6-digit-rounded
`[0.333333, 0.666667, 0.99]` while the interpolated entry carries the
freshly recomputed, unrounded `[1/3, 2/3, 0.99]`. -/
theorem c5_counterexample :
    interpolateQ c5F (0 : ℚ) ≠ mkFrame [fbThree] 0 ∧
    (interpolateQ c5F (0 : ℚ)).map FlowDatum.cuts = [⟨1/3, 2/3, 99/100⟩] ∧
    (mkFrame [fbThree] 0).map FlowDatum.cuts =
      [⟨333333/1000000, 666667/1000000, 99/100⟩] := by
  refine ⟨?_, by rw [c5F_interp]; rfl, by rw [fbThree_frame0]; rfl⟩
  rw [c5F_interp, fbThree_frame0]
  intro heq
  have := congrArg (fun l => (l.map FlowDatum.cuts)) heq
  simp only [List.map_cons, List.map_nil] at this
  norm_num [List.cons.injEq, Cuts.mk.injEq] at this

/-- **C5 amended witness**: the amended statement instantiated at the
one-flow dataset `[fbThree]` and `H = 0`. -/
theorem c5_amended_witness :
    interpolateQ c5F ((0 : Fin 24) : ℚ) =
      sortByTotalDesc FlowDatum.total ((c5F 0).filterMap fun ke =>
        if ke.2.total ≤ 1/10000 then none
        else some ⟨ke.1.o, ke.1.d, ke.2.total, ke.2.bins, cutsFromBins ke.2.bins⟩) :=
  c5_amended c5F 0 (by
    show ((frameMapOf (mkFrame [fbThree] 0)).map Prod.fst).Nodup
    rw [fbThree_frame0]
    simp [frameMapOf])

end Flowmap
